import Mathlib

/-!
# Verification of `extract_neighbors.py` (african-countries)

A shallow embedding of the neighbor-extraction pipeline of
`src/extract_neighbors.py`.  The script reads a TopoJSON-style topology and a
metadata table and produces, for every recognized region code, the sorted list
of neighboring region codes (regions sharing at least one boundary arc).

The embedding follows the source line by line:

* `all_alpha3`      — the universe of recognized codes (lines 13–18);
* `resolveAlpha3`   — per-geometry code resolution (lines 24–37);
* `id_to_alpha3`    — the id/name → code table (lines 23–44);
* `flatten_arcs`    — recursive flattening of nested arc lists (lines 54–61);
* `normalize`       — sign normalization `arc if arc >= 0 else ~arc` (line 66);
* `arc_to_alpha3`   — the arc → owner-set table (lines 46–69); the second pass
  evaluates `geom['properties']` without a guard (line 47), so the pass is
  partial: the embedding returns `Option`, `none` modelling the `KeyError`;
* `buildNeighbors`  — the pairwise adjacency builder (lines 71–79);
* `get_neighbors`   — the whole pipeline (lines 3–83), with the final
  per-key sort (line 82).

Python truthiness of an optional string field (`None` or `""` are falsy) is
modelled by `truthy`.  Python dicts are modelled by association lists:
insertion `d[k] = v` prepends, lookup takes the first match (last write wins).
A metadata entry is modelled by its optional `alpha3` field only; the Python
truthiness test `if meta_entry:` (false for an empty dict `{}`) is observably
equivalent to the embedding because in either case the resolved value stays
falsy and the geometry is treated as unresolved.
-/

namespace AfricaNeighbors

/-- A (possibly arbitrarily nested) arc-reference structure, i.e. the JSON
value stored under a geometry's `arcs` key: an integer leaf, or a list of such
structures.  A Python list `[x, y, …]` is encoded as
`.cons x (.cons y ( … .nil))`. -/
inductive ArcTree where
  | leaf : Int → ArcTree
  | nil : ArcTree
  | cons : ArcTree → ArcTree → ArcTree
deriving DecidableEq, Repr

/-- The `properties` bag of a geometry: the two fields the script reads. -/
structure Props where
  alpha3 : Option String
  name : Option String
deriving DecidableEq, Repr

/-- A metadata entry: the script only reads its optional `alpha3` field. -/
structure MetaEntry where
  alpha3 : Option String
deriving DecidableEq, Repr

/-- One geometry record of `topo['objects']['africa']['geometries']`.
`properties = none` models a record without a `'properties'` key;
`arcs` absent is modelled by `.nil` (the script defaults it to `[]`). -/
structure Geometry where
  id : Option String
  properties : Option Props
  arcs : ArcTree
deriving DecidableEq, Repr

/-- The metadata table: a JSON object mapping display names to entries. -/
abbrev Metadata := List (String × MetaEntry)

/-- Python truthiness of an optional string: `None` and `""` are falsy. -/
def truthy : Option String → Bool
  | none => false
  | some s => s != ""

/-- One step of lines 16–18: `if info.get('alpha3'): all_alpha3.add(...)`,
on a set modelled as a duplicate-free list in insertion order. -/
def univStep (acc : List String) (e : String × MetaEntry) : List String :=
  match e.2.alpha3 with
  | some a => if a = "" then acc else if a ∈ acc then acc else acc ++ [a]
  | none => acc

/-- Lines 13–18: the set of recognized codes, collected from the values of the
metadata table. -/
def all_alpha3 (md : Metadata) : List String :=
  md.foldl univStep []

/-- `metadata.get(name)` where `name` may be Python `None` (line 31). -/
def metaLookup (md : Metadata) : Option String → Option MetaEntry
  | none => none
  | some n => List.lookup n md

/-- Lines 25–37: the value of the local variable `alpha3` at the end of one
iteration of the first loop: embedded `properties.alpha3` if truthy, else the
metadata entry's `alpha3` looked up by `properties.name` (kept unchanged when
no entry exists), finally overridden to `"SOM"` for Somaliland / id `"ABV"`. -/
def resolveAlpha3 (md : Metadata) (g : Geometry) : Option String :=
  let a0 := g.properties.bind Props.alpha3
  let name := g.properties.bind Props.name
  let a1 :=
    if truthy a0 then a0
    else
      match metaLookup md name with
      | some e => e.alpha3
      | none => a0
  if name = some "Somaliland" ∨ g.id = some "ABV" then some "SOM" else a1

/-- Line 39: the geometry is recorded only when the resolved `alpha3` is
truthy; `resolvedCode` is that truthy value, or `none` for an unresolved
geometry. -/
def resolvedCode (md : Metadata) (g : Geometry) : Option String :=
  match resolveAlpha3 md g with
  | some a => if a = "" then none else some a
  | none => none

/-- Line 40: the key `geom.get('id') or name` under which the resolved code is
stored (Python `or`: the `id` when truthy, else the `name`, which may itself
be `None`). -/
def pass1Key (g : Geometry) : Option String :=
  if truthy g.id then g.id else g.properties.bind Props.name

/-- One step of the first loop (lines 24–44). -/
def idStep (md : Metadata) (acc : List (Option String × String)) (g : Geometry) :
    List (Option String × String) :=
  match resolvedCode md g with
  | some a => (pass1Key g, a) :: acc
  | none => acc

/-- Lines 23–44: the `id_to_alpha3` dict, as an association list in which the
most recent write is found first. -/
def id_to_alpha3 (md : Metadata) (gs : List Geometry) : List (Option String × String) :=
  gs.foldl (idStep md) []

/-- `id_to_alpha3.get(geom_id)` (line 48). -/
def lookupId : List (Option String × String) → Option String → Option String
  | [], _ => none
  | (k, v) :: rest, k' => if k = k' then some v else lookupId rest k'

/-- Line 47: `geom.get('id') or geom['properties'].get('name')`.  Unlike the
first pass, the subscript `geom['properties']` is unguarded: when the id is
falsy and the geometry has no `properties` key the script raises `KeyError`,
modelled by `none`. -/
def pass2Key (g : Geometry) : Option (Option String) :=
  if truthy g.id then some g.id
  else
    match g.properties with
    | none => none
    | some p => some p.name

/-- Lines 54–61: recursively flatten the nested arc structure into the flat
left-to-right list of its integer leaves. -/
def flatten_arcs : ArcTree → List Int
  | .leaf r => [r]
  | .nil => []
  | .cons x y => flatten_arcs x ++ flatten_arcs y

/-- Python bitwise complement `~r` on (arbitrary-precision) integers. -/
def pyNot (r : Int) : Int := -(r + 1)

/-- Line 66: `normalized_arc = arc if arc >= 0 else ~arc`. -/
def normalize (r : Int) : Int := if 0 ≤ r then r else pyNot r

/-- Lines 67–69: `arc_to_alpha3[normalized_arc].add(target_alpha3)`, on a dict
modelled as an association list whose values are duplicate-free lists. -/
def addOwner : List (Int × List String) → Int → String → List (Int × List String)
  | [], arc, code => [(arc, [code])]
  | (a, s) :: rest, arc, code =>
    if a = arc then (a, if code ∈ s then s else code :: s) :: rest
    else (a, s) :: addOwner rest arc code

/-- Lines 65–69: record one geometry's (already flattened) arc references
under its resolved code. -/
def indexGeometry (tbl : List (Int × List String)) (code : String) (refs : List Int) :
    List (Int × List String) :=
  refs.foldl (fun tb r => addOwner tb (normalize r) code) tbl

/-- One step of the second loop (lines 46–69) over one geometry, threading the
possibility of the line-47 `KeyError`. -/
def arcStep (idmap : List (Option String × String))
    (acc : Option (List (Int × List String))) (g : Geometry) :
    Option (List (Int × List String)) :=
  match acc with
  | none => none
  | some tbl =>
    match pass2Key g with
    | none => none
    | some k =>
      match lookupId idmap k with
      | some t =>
        if t = "" then some tbl else some (indexGeometry tbl t (flatten_arcs g.arcs))
      | none => some tbl

/-- The second loop (lines 46–69), given the already built id → code table. -/
def arcPass (idmap : List (Option String × String)) (gs : List Geometry) :
    Option (List (Int × List String)) :=
  gs.foldl (arcStep idmap) (some [])

/-- Lines 9–69: the full arc → owner-set table of the script. -/
def arc_to_alpha3 (md : Metadata) (gs : List Geometry) :
    Option (List (Int × List String)) :=
  arcPass (id_to_alpha3 md gs) gs

/-- Lines 78–79: `if a1 in neighbors: neighbors[a1].add(a2)` — only an
existing key is updated, and insertion is idempotent. -/
def addNeighbor (nb : List (String × List String)) (a1 a2 : String) :
    List (String × List String) :=
  nb.map (fun p => if p.1 = a1 then (p.1, if a2 ∈ p.2 then p.2 else a2 :: p.2) else p)

/-- Lines 76–79: the inner loop `for a2 in alpha3_set` for a fixed `a1`. -/
def addPairsFor (a1 : String) (s : List String) (nb : List (String × List String)) :
    List (String × List String) :=
  s.foldl (fun nb2 a2 => if a1 = a2 then nb2 else addNeighbor nb2 a1 a2) nb

/-- The outer loop `for a1 in t` with inner list `s` (in the script both are
the arc's owner set). -/
def addPairsAux (s t : List String) (nb : List (String × List String)) :
    List (String × List String) :=
  t.foldl (fun nb1 a1 => addPairsFor a1 s nb1) nb

/-- Lines 75–79: the double loop over an arc's owner set. -/
def addPairs (s : List String) (nb : List (String × List String)) :
    List (String × List String) :=
  addPairsAux s s nb

/-- Line 71: `neighbors = {alpha3: set() for alpha3 in all_alpha3}`. -/
def initNeighbors (univ : List String) : List (String × List String) :=
  univ.map (fun a => (a, ([] : List String)))

/-- Lines 71–79: fold the adjacency contributions of every arc whose owner
set has more than one element into the initialized neighbor map. -/
def buildNeighbors (univ : List String) (tbl : List (Int × List String)) :
    List (String × List String) :=
  tbl.foldl (fun nb p => if 1 < p.2.length then addPairs p.2 nb else nb)
    (initNeighbors univ)

/-- Line 82: `sorted(list(v))` — lexicographic sort of the neighbor set.  The
comparison is lexicographic on the character sequences, as in Python. -/
def sortStr (l : List String) : List String :=
  List.insertionSort (fun a b => a.data ≤ b.data) l

/-- Lines 3–83: the whole pipeline, from the two parsed input documents to the
final mapping; `none` models the line-47 `KeyError`. -/
def get_neighbors (md : Metadata) (gs : List Geometry) :
    Option (List (String × List String)) :=
  match arc_to_alpha3 md gs with
  | none => none
  | some tbl =>
    some ((buildNeighbors (all_alpha3 md) tbl).map (fun p => (p.1, sortStr p.2)))

/-! ### Concrete test inputs -/

/-- A metadata table recognizing the single code `"AAA"`. -/
def exMd : Metadata := [("Aland", ⟨some "AAA"⟩)]

/-- A geometry with embedded code `"AAA"` referencing arc `5`. -/
def gA : Geometry := ⟨some "gA", some ⟨some "AAA", none⟩, .cons (.leaf 5) .nil⟩

/-- A geometry with embedded code `"XXX"` (absent from `exMd`) also
referencing arc `5`. -/
def gX : Geometry := ⟨some "gX", some ⟨some "XXX", none⟩, .cons (.leaf 5) .nil⟩

/-- Two geometries sharing arc `5`; one owner is outside the universe. -/
def exGs : List Geometry := [gA, gX]

/-- Metadata recognizing `"AAA"`, `"BBB"`, `"CCC"`. -/
def exMd2 : Metadata := [("a", ⟨some "AAA"⟩), ("b", ⟨some "BBB"⟩), ("c", ⟨some "CCC"⟩)]

/-- Geometry `g1`: code `"AAA"`, references arc `5` forward. -/
def g1 : Geometry := ⟨some "g1", some ⟨some "AAA", none⟩, .cons (.leaf 5) .nil⟩

/-- Geometry `g2`: code `"BBB"`, references arc `5` reversed, as `-6`. -/
def g2 : Geometry := ⟨some "g2", some ⟨some "BBB", none⟩, .cons (.leaf (-6)) .nil⟩

/-- Two geometries sharing arc `5` through opposite traversal directions,
plus a recognized code `"CCC"` owning nothing. -/
def exGs2 : List Geometry := [g1, g2]

/-- The expected output on `exMd2` / `exGs2`. -/
def exOut2 : List (String × List String) :=
  [("AAA", ["BBB"]), ("BBB", ["AAA"]), ("CCC", [])]

/-- A geometry with id `"X"` resolving to `"AAA"`, referencing arc `5`. -/
def gV : Geometry := ⟨some "X", some ⟨some "AAA", none⟩, .cons (.leaf 5) .nil⟩

/-- An unresolvable geometry that shares the id `"X"` with `gV` and
references arc `7`. -/
def gU : Geometry := ⟨some "X", some ⟨none, none⟩, .cons (.leaf 7) .nil⟩

/-- An unresolvable geometry whose id `"Y"` is shared with no other
geometry. -/
def gY : Geometry := ⟨some "Y", some ⟨none, none⟩, .cons (.leaf 9) .nil⟩

/-! ### Specification-side definitions for the refinement claims -/

/-- The metadata fallback of the resolution rule as the specification words
it: the code field of the entry looked up by name, when the entry exists and
carries a usable (non-empty) code. -/
def specMetaCode (md : Metadata) (name : Option String) : Option String :=
  match metaLookup md name with
  | some e =>
    match e.alpha3 with
    | some c => if c = "" then none else some c
    | none => none
  | none => none

/-- The resolver as claim C3 words it: the override for name `"Somaliland"`
or id `"ABV"` forces `"SOM"` regardless of steps 1–2; otherwise the embedded
`properties.alpha3` when present and non-empty; otherwise the metadata code
looked up by `properties.name`. -/
def specResolve (md : Metadata) (g : Geometry) : Option String :=
  let name := g.properties.bind Props.name
  if name = some "Somaliland" ∨ g.id = some "ABV" then some "SOM"
  else
    match g.properties.bind Props.alpha3 with
    | some a => if a = "" then specMetaCode md name else some a
    | none => specMetaCode md name

/-- The flat ordered sequence of the integer leaf references of an arc
structure, as the specification describes flattening, here written as an
accumulator-passing traversal. -/
def leafSeq : ArcTree → List Int → List Int
  | .leaf r, acc => r :: acc
  | .nil, acc => acc
  | .cons x y, acc => leafSeq x (leafSeq y acc)

/-- `LeafFlip t t'`: `t'` is `t` with exactly one integer arc reference `r`
replaced by its complement `-r - 1`. -/
inductive LeafFlip : ArcTree → ArcTree → Prop
  | leaf (r : Int) : LeafFlip (.leaf r) (.leaf (-r - 1))
  | left {x x' y : ArcTree} : LeafFlip x x' → LeafFlip (.cons x y) (.cons x' y)
  | right {x y y' : ArcTree} : LeafFlip y y' → LeafFlip (.cons x y) (.cons x y')

/-! ### A functional view of the adjacency builder

The neighbor map built by lines 71–79 always has the shape
`univ.map (fun a => (a, f a))` for a function `f` from codes to neighbor
lists; the following definitions track that function through the folds, and
the `…_map` lemmas prove the correspondence. -/

/-- The effect of `addNeighbor` on the value function: insert `a2` into the
list at `a1` (all other keys unchanged). -/
def updFn (f : String → List String) (a1 a2 : String) : String → List String :=
  fun a => if a = a1 then (if a2 ∈ f a1 then f a1 else a2 :: f a1) else f a

/-- The effect of `addPairsFor a1 s` on the value function. -/
def pairsForFn (a1 : String) (s : List String) (f : String → List String) :
    String → List String :=
  s.foldl (fun f2 a2 => if a1 = a2 then f2 else updFn f2 a1 a2) f

/-- The effect of `addPairsAux s t` on the value function. -/
def pairsAuxFn (s t : List String) (f : String → List String) : String → List String :=
  t.foldl (fun f1 a1 => pairsForFn a1 s f1) f

/-- The effect of `addPairs s` on the value function. -/
def pairsFn (s : List String) (f : String → List String) : String → List String :=
  pairsAuxFn s s f

/-- The effect of the whole builder fold on the value function. -/
def tblFn (tbl : List (Int × List String)) (f : String → List String) :
    String → List String :=
  tbl.foldl (fun fa p => if 1 < p.2.length then pairsFn p.2 fa else fa) f

/-- The neighbor list the builder assigns to code `a`, before sorting. -/
def nbOf (tbl : List (Int × List String)) (a : String) : List String :=
  tblFn tbl (fun _ => []) a

lemma pairsForFn_cons (a1 a2 : String) (rest : List String) (f : String → List String) :
    pairsForFn a1 (a2 :: rest) f =
      pairsForFn a1 rest (if a1 = a2 then f else updFn f a1 a2) := rfl

lemma pairsAuxFn_cons (s : List String) (a1 : String) (rest : List String)
    (f : String → List String) :
    pairsAuxFn s (a1 :: rest) f = pairsAuxFn s rest (pairsForFn a1 s f) := rfl

lemma tblFn_cons (p : Int × List String) (rest : List (Int × List String))
    (f : String → List String) :
    tblFn (p :: rest) f = tblFn rest (if 1 < p.2.length then pairsFn p.2 f else f) := rfl

lemma addNeighbor_map (univ : List String) (f : String → List String) (a1 a2 : String) :
    addNeighbor (univ.map (fun a => (a, f a))) a1 a2 =
      univ.map (fun a => (a, updFn f a1 a2 a)) := by
  unfold addNeighbor
  rw [List.map_map]
  congr 1
  funext a
  by_cases h : a = a1
  · subst h; simp [updFn]
  · simp [updFn, h]

lemma addPairsFor_map (s : List String) (univ : List String) (f : String → List String)
    (a1 : String) :
    addPairsFor a1 s (univ.map (fun a => (a, f a))) =
      univ.map (fun a => (a, pairsForFn a1 s f a)) := by
  induction s generalizing f with
  | nil => rfl
  | cons a2 rest ih =>
    show addPairsFor a1 rest _ = _
    by_cases h : a1 = a2
    · simpa [addPairsFor, pairsForFn, h] using ih f
    · have h1 : addNeighbor (univ.map (fun a => (a, f a))) a1 a2 =
          univ.map (fun a => (a, updFn f a1 a2 a)) := addNeighbor_map univ f a1 a2
      simp only [addPairsFor, List.foldl_cons, pairsForFn, if_neg h] at *
      rw [h1, ih (updFn f a1 a2)]

lemma addPairsAux_map (s t : List String) (univ : List String) (f : String → List String) :
    addPairsAux s t (univ.map (fun a => (a, f a))) =
      univ.map (fun a => (a, pairsAuxFn s t f a)) := by
  induction t generalizing f with
  | nil => rfl
  | cons a1 rest ih =>
    simp only [addPairsAux, List.foldl_cons, pairsAuxFn] at *
    rw [addPairsFor_map s univ f a1, ih (pairsForFn a1 s f)]

lemma addPairs_map (s : List String) (univ : List String) (f : String → List String) :
    addPairs s (univ.map (fun a => (a, f a))) =
      univ.map (fun a => (a, pairsFn s f a)) :=
  addPairsAux_map s s univ f

lemma foldTbl_map (tbl : List (Int × List String)) (univ : List String)
    (f : String → List String) :
    tbl.foldl (fun nb p => if 1 < p.2.length then addPairs p.2 nb else nb)
        (univ.map (fun a => (a, f a))) =
      univ.map (fun a => (a, tblFn tbl f a)) := by
  induction tbl generalizing f with
  | nil => rfl
  | cons p rest ih =>
    rw [List.foldl_cons, tblFn_cons]
    by_cases h : 1 < p.2.length
    · rw [if_pos h, if_pos h, addPairs_map p.2 univ f, ih (pairsFn p.2 f)]
    · rw [if_neg h, if_neg h, ih f]

/-- The builder's result is the universe, each code mapped through `nbOf`. -/
lemma buildNeighbors_map (univ : List String) (tbl : List (Int × List String)) :
    buildNeighbors univ tbl = univ.map (fun a => (a, nbOf tbl a)) :=
  foldTbl_map tbl univ (fun _ => [])

/-! ### Membership characterization of the builder -/

lemma mem_updFn (f : String → List String) (a1 a2 a b : String) :
    b ∈ updFn f a1 a2 a ↔ b ∈ f a ∨ (a = a1 ∧ b = a2) := by
  unfold updFn
  by_cases h : a = a1
  · subst h
    by_cases h2 : a2 ∈ f a
    · simp only [if_pos rfl, if_pos h2]
      constructor
      · exact fun hb => Or.inl hb
      · rintro (hb | ⟨-, rfl⟩) <;> [exact hb; exact h2]
    · simp [if_pos rfl, if_neg h2, List.mem_cons, or_comm]
  · simp [if_neg h, h]

lemma mem_pairsForFn (s : List String) (f : String → List String) (a1 a b : String) :
    b ∈ pairsForFn a1 s f a ↔ b ∈ f a ∨ (a = a1 ∧ b ∈ s ∧ b ≠ a1) := by
  induction s generalizing f with
  | nil => simp [pairsForFn]
  | cons a2 rest ih =>
    rw [pairsForFn_cons]
    by_cases h : a1 = a2
    · subst h
      rw [if_pos rfl, ih f]
      constructor
      · rintro (hb | ⟨rfl, hmem, hne⟩)
        · exact Or.inl hb
        · exact Or.inr ⟨rfl, List.mem_cons_of_mem _ hmem, hne⟩
      · rintro (hb | ⟨rfl, hmem, hne⟩)
        · exact Or.inl hb
        · rcases List.mem_cons.mp hmem with rfl | hmem
          · exact absurd rfl hne
          · exact Or.inr ⟨rfl, hmem, hne⟩
    · rw [if_neg h, ih (updFn f a1 a2)]
      constructor
      · rintro (hb | ⟨rfl, hmem, hne⟩)
        · rcases (mem_updFn f a1 a2 a b).mp hb with hb | ⟨rfl, rfl⟩
          · exact Or.inl hb
          · exact Or.inr ⟨rfl, List.mem_cons_self _ _, fun hc => h hc.symm⟩
        · exact Or.inr ⟨rfl, List.mem_cons_of_mem _ hmem, hne⟩
      · rintro (hb | ⟨rfl, hmem, hne⟩)
        · exact Or.inl ((mem_updFn f a1 a2 a b).mpr (Or.inl hb))
        · rcases List.mem_cons.mp hmem with rfl | hmem
          · exact Or.inl ((mem_updFn _ _ _ _ _).mpr (Or.inr ⟨rfl, rfl⟩))
          · exact Or.inr ⟨rfl, hmem, hne⟩

lemma mem_pairsAuxFn (s t : List String) (f : String → List String) (a b : String) :
    b ∈ pairsAuxFn s t f a ↔ b ∈ f a ∨ (a ∈ t ∧ b ∈ s ∧ b ≠ a) := by
  induction t generalizing f with
  | nil => simp [pairsAuxFn]
  | cons a1 rest ih =>
    rw [pairsAuxFn_cons, ih (pairsForFn a1 s f)]
    rw [mem_pairsForFn]
    constructor
    · rintro ((hb | ⟨rfl, hmem, hne⟩) | ⟨ha, hmem, hne⟩)
      · exact Or.inl hb
      · exact Or.inr ⟨List.mem_cons_self _ _, hmem, hne⟩
      · exact Or.inr ⟨List.mem_cons_of_mem _ ha, hmem, hne⟩
    · rintro (hb | ⟨ha, hmem, hne⟩)
      · exact Or.inl (Or.inl hb)
      · rcases List.mem_cons.mp ha with rfl | ha
        · exact Or.inl (Or.inr ⟨rfl, hmem, hne⟩)
        · exact Or.inr ⟨ha, hmem, hne⟩

lemma mem_pairsFn (s : List String) (f : String → List String) (a b : String) :
    b ∈ pairsFn s f a ↔ b ∈ f a ∨ (a ∈ s ∧ b ∈ s ∧ b ≠ a) :=
  mem_pairsAuxFn s s f a b

lemma mem_tblFn (tbl : List (Int × List String)) (f : String → List String) (a b : String) :
    b ∈ tblFn tbl f a ↔
      b ∈ f a ∨ ∃ p ∈ tbl, 1 < p.2.length ∧ a ∈ p.2 ∧ b ∈ p.2 ∧ b ≠ a := by
  induction tbl generalizing f with
  | nil => simp [tblFn]
  | cons p rest ih =>
    rw [tblFn_cons]
    by_cases h : 1 < p.2.length
    · rw [if_pos h, ih (pairsFn p.2 f), mem_pairsFn]
      constructor
      · rintro ((hb | ⟨ha, hmem, hne⟩) | ⟨q, hq, hlen, hqa, hqb, hne⟩)
        · exact Or.inl hb
        · exact Or.inr ⟨p, List.mem_cons_self _ _, h, ha, hmem, hne⟩
        · exact Or.inr ⟨q, List.mem_cons_of_mem _ hq, hlen, hqa, hqb, hne⟩
      · rintro (hb | ⟨q, hq, hlen, hqa, hqb, hne⟩)
        · exact Or.inl (Or.inl hb)
        · rcases List.mem_cons.mp hq with rfl | hq
          · exact Or.inl (Or.inr ⟨hqa, hqb, hne⟩)
          · exact Or.inr ⟨q, hq, hlen, hqa, hqb, hne⟩
    · rw [if_neg h, ih f]
      constructor
      · rintro (hb | ⟨q, hq, hlen, hrest⟩)
        · exact Or.inl hb
        · exact Or.inr ⟨q, List.mem_cons_of_mem _ hq, hlen, hrest⟩
      · rintro (hb | ⟨q, hq, hlen, hrest⟩)
        · exact Or.inl hb
        · rcases List.mem_cons.mp hq with rfl | hq
          · exact absurd hlen h
          · exact Or.inr ⟨q, hq, hlen, hrest⟩

/-- The neighbor list of `a`: exactly the codes sharing some arc with `a`
whose owner set has more than one element. -/
lemma mem_nbOf (tbl : List (Int × List String)) (a b : String) :
    b ∈ nbOf tbl a ↔ ∃ p ∈ tbl, 1 < p.2.length ∧ a ∈ p.2 ∧ b ∈ p.2 ∧ b ≠ a := by
  rw [nbOf, mem_tblFn]; simp

lemma mem_sortStr (l : List String) (b : String) : b ∈ sortStr l ↔ b ∈ l :=
  (List.perm_insertionSort _ l).mem_iff

/-! ### Shape of the final output -/

/-- When the arc table is defined, the output is the universe mapped through
the (sorted) neighbor function. -/
lemma get_neighbors_eq_map (md : Metadata) (gs : List Geometry)
    (tbl : List (Int × List String)) (h : arc_to_alpha3 md gs = some tbl) :
    get_neighbors md gs =
      some ((all_alpha3 md).map (fun a => (a, sortStr (nbOf tbl a)))) := by
  have h1 : get_neighbors md gs =
      some ((buildNeighbors (all_alpha3 md) tbl).map (fun p => (p.1, sortStr p.2))) := by
    rw [get_neighbors, h]
  rw [h1, buildNeighbors_map, List.map_map]
  rfl

/-- Inversion: a defined output determines an arc table and the map shape. -/
lemma get_neighbors_some_inv (md : Metadata) (gs : List Geometry)
    (out : List (String × List String)) (h : get_neighbors md gs = some out) :
    ∃ tbl, arc_to_alpha3 md gs = some tbl ∧
      out = (all_alpha3 md).map (fun a => (a, sortStr (nbOf tbl a))) := by
  cases harc : arc_to_alpha3 md gs with
  | none => rw [get_neighbors, harc] at h; exact absurd h (by simp)
  | some tbl =>
    refine ⟨tbl, rfl, ?_⟩
    have := get_neighbors_eq_map md gs tbl harc
    rw [h] at this
    exact Option.some_inj.mp this

/-- Membership in the universe list `all_alpha3` is exactly "some metadata
entry carries this non-empty code". -/
lemma mem_univStep (acc : List String) (e : String × MetaEntry) (c : String) :
    c ∈ univStep acc e ↔ c ∈ acc ∨ (e.2.alpha3 = some c ∧ c ≠ "") := by
  cases ha : e.2.alpha3 with
  | none => simp [univStep, ha]
  | some a =>
    by_cases he : a = ""
    · subst he
      simp only [univStep, ha, if_pos rfl]
      constructor
      · exact fun h => Or.inl h
      · rintro (h | ⟨hc, hne⟩)
        · exact h
        · exact absurd (Option.some_inj.mp hc).symm hne
    · by_cases hm : a ∈ acc
      · simp only [univStep, ha, if_neg he, if_pos hm]
        constructor
        · exact fun h => Or.inl h
        · rintro (h | ⟨hc, -⟩)
          · exact h
          · rwa [← Option.some_inj.mp hc]
      · simp only [univStep, ha, if_neg he, if_neg hm, List.mem_append,
          List.mem_singleton]
        constructor
        · rintro (h | rfl)
          · exact Or.inl h
          · exact Or.inr ⟨rfl, he⟩
        · rintro (h | ⟨hc, -⟩)
          · exact Or.inl h
          · exact Or.inr (Option.some_inj.mp hc).symm

lemma mem_all_alpha3 (md : Metadata) (c : String) :
    c ∈ all_alpha3 md ↔ ∃ p ∈ md, p.2.alpha3 = some c ∧ c ≠ "" := by
  have step : ∀ (l : Metadata) (acc : List String),
      c ∈ l.foldl univStep acc ↔
        c ∈ acc ∨ ∃ p ∈ l, p.2.alpha3 = some c ∧ c ≠ "" := by
    intro l
    induction l with
    | nil => simp
    | cons e rest ih =>
      intro acc
      rw [List.foldl_cons, ih, mem_univStep]
      simp only [List.mem_cons]
      constructor
      · rintro ((h | he) | ⟨p, hp, hrest⟩)
        · exact Or.inl h
        · exact Or.inr ⟨e, Or.inl rfl, he⟩
        · exact Or.inr ⟨p, Or.inr hp, hrest⟩
      · rintro (h | ⟨p, rfl | hp, hrest⟩)
        · exact Or.inl (Or.inl h)
        · exact Or.inl (Or.inr hrest)
        · exact Or.inr ⟨p, hp, hrest⟩
  rw [all_alpha3, step md []]
  simp

/-- A key/value pair is in the output iff the key is a recognized code and
the value is its sorted neighbor list. -/
lemma mem_out_iff (md : Metadata) (gs : List Geometry) (tbl : List (Int × List String))
    (out : List (String × List String)) (harc : arc_to_alpha3 md gs = some tbl)
    (h : get_neighbors md gs = some out) (a : String) (l : List String) :
    (a, l) ∈ out ↔ a ∈ all_alpha3 md ∧ l = sortStr (nbOf tbl a) := by
  have heq := get_neighbors_eq_map md gs tbl harc
  rw [h] at heq
  obtain rfl := Option.some_inj.mp heq
  constructor
  · intro hmem
    rcases List.mem_map.mp hmem with ⟨x, hx, hxeq⟩
    injection hxeq with h1 h2
    subst h1; subst h2
    exact ⟨hx, rfl⟩
  · rintro ⟨ha, rfl⟩
    exact List.mem_map.mpr ⟨a, ha, rfl⟩


/-! ### Assorted helper lemmas -/

lemma one_lt_length_of_mem_ne {α : Type} {s : List α} {a b : α}
    (ha : a ∈ s) (hb : b ∈ s) (hne : a ≠ b) : 1 < s.length := by
  cases s with
  | nil => cases ha
  | cons x rest =>
    cases rest with
    | nil =>
      rw [List.mem_singleton] at ha hb
      exact absurd (ha.trans hb.symm) hne
    | cons y t => simp only [List.length_cons]; omega

lemma leafSeq_eq (t : ArcTree) : ∀ acc : List Int, leafSeq t acc = flatten_arcs t ++ acc := by
  induction t with
  | leaf r => intro acc; rfl
  | nil => intro acc; rfl
  | cons x y ihx ihy =>
    intro acc
    rw [leafSeq, flatten_arcs, ihy acc, ihx (flatten_arcs y ++ acc), List.append_assoc]

lemma offDiag_card_toFinset (s : List String) :
    s.toFinset.offDiag.card = 2 * Nat.choose s.toFinset.card 2 := by
  rw [Finset.offDiag_card, Nat.choose_two_right]
  generalize s.toFinset.card = n
  have hev : 2 ∣ n * (n - 1) := by
    rcases Nat.even_or_odd n with he | ho
    · exact Dvd.dvd.mul_right he.two_dvd _
    · have hne : Even (n - 1) := by
        rcases ho with ⟨k, hk⟩
        exact ⟨k, by omega⟩
      exact Dvd.dvd.mul_left hne.two_dvd _
  rw [Nat.mul_div_cancel' hev]
  cases n with
  | zero => rfl
  | succ k =>
    have h1 : (k + 1) * (k + 1) = (k + 1) * k + (k + 1) := by ring
    have h3 : k + 1 - 1 = k := rfl
    rw [h3, h1, Nat.add_sub_cancel]

lemma arcFold_none (idmap : List (Option String × String)) (gs : List Geometry) :
    gs.foldl (arcStep idmap) none = none := by
  induction gs with
  | nil => rfl
  | cons g rest ih => rw [List.foldl_cons]; exact ih

lemma arcStep_some (idmap : List (Option String × String))
    (tbl : List (Int × List String)) (g : Geometry) (k : Option String)
    (h : pass2Key g = some k) :
    ∃ tbl', arcStep idmap (some tbl) g = some tbl' := by
  simp only [arcStep, h]
  cases hl : lookupId idmap k with
  | none => exact ⟨tbl, rfl⟩
  | some t =>
    by_cases ht : t = ""
    · exact ⟨tbl, by simp [ht]⟩
    · exact ⟨indexGeometry tbl t (flatten_arcs g.arcs), by simp [ht]⟩

lemma arcFold_isSome (idmap : List (Option String × String)) :
    ∀ (gs : List Geometry) (tbl : List (Int × List String)),
      (gs.foldl (arcStep idmap) (some tbl)).isSome = true ↔
        ∀ g ∈ gs, (pass2Key g).isSome = true := by
  intro gs
  induction gs with
  | nil => intro tbl; simp
  | cons g rest ih =>
    intro tbl
    rw [List.foldl_cons]
    cases hp2 : pass2Key g with
    | none =>
      have hnone : arcStep idmap (some tbl) g = none := by rw [arcStep, hp2]
      rw [hnone, arcFold_none]
      simp [hp2]
    | some k =>
      obtain ⟨tbl', h'⟩ := arcStep_some idmap tbl g k hp2
      rw [h', ih tbl']
      simp [List.forall_mem_cons, hp2]

lemma pass2Key_isSome (g : Geometry) :
    (pass2Key g).isSome = true ↔ (truthy g.id = true ∨ g.properties ≠ none) := by
  by_cases h : truthy g.id
  · simp [pass2Key, h]
  · cases hp : g.properties with
    | none => simp [pass2Key, h, hp]
    | some p => simp [pass2Key, h, hp]

/-! ### Helper lemmas for the resolver claim (C3) -/

lemma resolvedCode_eq_specResolve (md : Metadata) (g : Geometry) :
    resolvedCode md g = specResolve md g := by
  by_cases hover : (g.properties.bind Props.name = some "Somaliland" ∨ g.id = some "ABV")
  · simp [resolvedCode, resolveAlpha3, specResolve, hover]
  · cases ha0 : g.properties.bind Props.alpha3 with
    | none =>
      cases hml : metaLookup md (g.properties.bind Props.name) with
      | none => simp [resolvedCode, resolveAlpha3, specResolve, specMetaCode, truthy,
          hover, ha0, hml]
      | some e =>
        cases he : e.alpha3 with
        | none => simp [resolvedCode, resolveAlpha3, specResolve, specMetaCode, truthy,
            hover, ha0, hml, he]
        | some c => simp [resolvedCode, resolveAlpha3, specResolve, specMetaCode, truthy,
            hover, ha0, hml, he]
    | some a =>
      by_cases hae : a = ""
      · subst hae
        cases hml : metaLookup md (g.properties.bind Props.name) with
        | none => simp [resolvedCode, resolveAlpha3, specResolve, specMetaCode, truthy,
            hover, ha0, hml]
        | some e =>
          cases he : e.alpha3 with
          | none => simp [resolvedCode, resolveAlpha3, specResolve, specMetaCode, truthy,
              hover, ha0, hml, he]
          | some c => simp [resolvedCode, resolveAlpha3, specResolve, specMetaCode, truthy,
              hover, ha0, hml, he]
      · simp [resolvedCode, resolveAlpha3, specResolve, truthy, hover, ha0, hae]

lemma id_to_alpha3_skip (md : Metadata) (pre post : List Geometry) (g : Geometry)
    (hres : resolvedCode md g = none) :
    id_to_alpha3 md (pre ++ g :: post) = id_to_alpha3 md (pre ++ post) := by
  rw [id_to_alpha3, id_to_alpha3, List.foldl_append, List.foldl_append, List.foldl_cons]
  congr 1
  simp only [idStep, hres]

lemma lookupId_fold (md : Metadata) (k : Option String) :
    ∀ (gs : List Geometry) (acc : List (Option String × String)) (v : String),
      lookupId (gs.foldl (idStep md) acc) k = some v →
      lookupId acc k = some v ∨ ∃ g ∈ gs, pass1Key g = k ∧ resolvedCode md g = some v := by
  intro gs
  induction gs with
  | nil => exact fun acc v h => Or.inl h
  | cons g rest ih =>
    intro acc v h
    rw [List.foldl_cons] at h
    rcases ih (idStep md acc g) v h with h1 | ⟨g', hg', hk, hr⟩
    · cases hres : resolvedCode md g with
      | none =>
        simp only [idStep, hres] at h1
        exact Or.inl h1
      | some a =>
        simp only [idStep, hres] at h1
        by_cases hpk : pass1Key g = k
        · rw [lookupId, if_pos hpk] at h1
          exact Or.inr ⟨g, List.mem_cons_self _ _, hpk,
            by rw [hres, Option.some_inj.mp h1]⟩
        · rw [lookupId, if_neg hpk] at h1
          exact Or.inl h1
    · exact Or.inr ⟨g', List.mem_cons_of_mem _ hg', hk, hr⟩

lemma lookupId_none_of_no_resolved (md : Metadata) (gs : List Geometry) (k : Option String)
    (hnone : ∀ g ∈ gs, pass1Key g = k → resolvedCode md g = none) :
    lookupId (id_to_alpha3 md gs) k = none := by
  cases h : lookupId (id_to_alpha3 md gs) k with
  | none => rfl
  | some v =>
    rcases lookupId_fold md k gs [] v h with h1 | ⟨g, hg, hk, hr⟩
    · cases h1
    · rw [hnone g hg hk] at hr
      cases hr

lemma arcPass_skip (idmap : List (Option String × String)) (pre post : List Geometry)
    (g : Geometry) (k : Option String)
    (hk : pass2Key g = some k) (hl : lookupId idmap k = none) :
    arcPass idmap (pre ++ g :: post) = arcPass idmap (pre ++ post) := by
  rw [arcPass, arcPass, List.foldl_append, List.foldl_append, List.foldl_cons]
  congr 1
  generalize List.foldl (arcStep idmap) (some []) pre = acc
  cases acc with
  | none => rfl
  | some tbl => simp only [arcStep, hk, hl]

/-! ### Helper lemmas for the sign-invariance claim (C4) -/

lemma normalize_compl (r : Int) : normalize (-r - 1) = normalize r := by
  rw [normalize, normalize, pyNot, pyNot]
  split_ifs <;> omega

lemma LeafFlip_flatten {t t' : ArcTree} (h : LeafFlip t t') :
    (flatten_arcs t).map normalize = (flatten_arcs t').map normalize := by
  induction h with
  | leaf r => simp [flatten_arcs, normalize_compl]
  | left h ih => simp only [flatten_arcs, List.map_append, ih]
  | right h ih => simp only [flatten_arcs, List.map_append, ih]

lemma indexGeometry_congr : ∀ l l' : List Int, l.map normalize = l'.map normalize →
    ∀ (tbl : List (Int × List String)) (c : String),
      indexGeometry tbl c l = indexGeometry tbl c l' := by
  intro l
  induction l with
  | nil =>
    intro l' h tbl c
    cases l' with
    | nil => rfl
    | cons r' rest' => simp at h
  | cons r rest ih =>
    intro l' h tbl c
    cases l' with
    | nil => simp at h
    | cons r' rest' =>
      rw [List.map_cons, List.map_cons] at h
      injection h with h1 h2
      rw [indexGeometry, List.foldl_cons, h1]
      exact ih rest' h2 (addOwner tbl (normalize r') c) c

lemma arcStep_flip (idmap : List (Option String × String))
    (acc : Option (List (Int × List String))) (g : Geometry) (t' : ArcTree)
    (h : LeafFlip g.arcs t') :
    arcStep idmap acc { g with arcs := t' } = arcStep idmap acc g := by
  cases acc with
  | none => rfl
  | some tbl =>
    have hkey : pass2Key { g with arcs := t' } = pass2Key g := rfl
    cases hk : pass2Key g with
    | none => simp only [arcStep, hkey, hk]
    | some k =>
      simp only [arcStep, hkey, hk]
      cases hl : lookupId idmap k with
      | none => rfl
      | some t =>
        by_cases ht : t = ""
        · simp [ht]
        · simp only [if_neg ht, Option.some_inj]
          exact indexGeometry_congr _ _ (LeafFlip_flatten h).symm tbl t

/-! ## Claims -/

/-- C1, counterexample: the claim "a region code that is not in the
recognized universe never appears anywhere in the output neighbor mapping"
is false.  On `exMd` / `exGs`, the code `"XXX"` comes from an embedded
`properties.alpha3` absent from the metadata, co-owns arc `5` with `"AAA"`,
and appears as a value in `"AAA"`'s neighbor list: the line-78 guard checks
only the left-hand code. -/
theorem C1_cex :
    "XXX" ∉ all_alpha3 exMd ∧ get_neighbors exMd exGs = some [("AAA", ["XXX"])] := by
  constructor
  · decide
  · decide

/-- C1, amended: a code outside the recognized universe never appears as a
key of the output mapping (every output key is in `all_alpha3`); it can,
however, appear as a value in an in-universe code's neighbor list when it
co-owns a shared arc with that code. -/
theorem C1_keys_in_universe (md : Metadata) (gs : List Geometry)
    (out : List (String × List String)) (k : String) (v : List String)
    (h : get_neighbors md gs = some out) (hmem : (k, v) ∈ out) :
    k ∈ all_alpha3 md := by
  obtain ⟨tbl, harc, -⟩ := get_neighbors_some_inv md gs out h
  exact ((mem_out_iff md gs tbl out harc h k v).mp hmem).1

/-- Witness for C1: a concrete run in which the amended statement applies. -/
theorem C1_witness :
    get_neighbors exMd2 exGs2 = some exOut2 ∧ "AAA" ∈ all_alpha3 exMd2 :=
  ⟨by decide,
    C1_keys_in_universe exMd2 exGs2 exOut2 "AAA" ["BBB"] (by decide) (by decide)⟩

/-- C2: the output mapping is symmetric — for any two codes `A`, `B` that
appear in the output (as keys, with neighbor lists `lA`, `lB`), `B` is in
`A`'s list iff `A` is in `B`'s list. -/
theorem C2_symmetric (md : Metadata) (gs : List Geometry)
    (out : List (String × List String)) (A B : String) (lA lB : List String)
    (h : get_neighbors md gs = some out)
    (hA : (A, lA) ∈ out) (hB : (B, lB) ∈ out) :
    B ∈ lA ↔ A ∈ lB := by
  obtain ⟨tbl, harc, -⟩ := get_neighbors_some_inv md gs out h
  obtain ⟨-, rfl⟩ := (mem_out_iff md gs tbl out harc h A lA).mp hA
  obtain ⟨-, rfl⟩ := (mem_out_iff md gs tbl out harc h B lB).mp hB
  rw [mem_sortStr, mem_sortStr, mem_nbOf, mem_nbOf]
  constructor
  · rintro ⟨p, hp, hlen, hA2, hB2, hne⟩
    exact ⟨p, hp, hlen, hB2, hA2, fun hc => hne hc.symm⟩
  · rintro ⟨p, hp, hlen, hB2, hA2, hne⟩
    exact ⟨p, hp, hlen, hA2, hB2, fun hc => hne hc.symm⟩

/-- Witness for C2 on a concrete run. -/
theorem C2_witness :
    get_neighbors exMd2 exGs2 = some exOut2 ∧ (("BBB" ∈ ["BBB"]) ↔ ("AAA" ∈ ["AAA"])) :=
  ⟨by decide,
    C2_symmetric exMd2 exGs2 exOut2 "AAA" "BBB" ["BBB"] ["AAA"]
      (by decide) (by decide) (by decide)⟩

/-- C7: every non-empty code of some metadata entry is a key of the output,
and it is mapped to the empty list when no arc's owner set relates it to any
other code. -/
theorem C7_universe_complete (md : Metadata) (gs : List Geometry)
    (tbl : List (Int × List String)) (out : List (String × List String))
    (nm : String) (e : MetaEntry) (c : String)
    (harc : arc_to_alpha3 md gs = some tbl) (h : get_neighbors md gs = some out)
    (hmd : (nm, e) ∈ md) (hc : e.alpha3 = some c) (hne : c ≠ "") :
    ∃ l, (c, l) ∈ out ∧
      ((∀ n s b, (n, s) ∈ tbl → c ∈ s → b ∈ s → b = c) → l = []) := by
  have hu : c ∈ all_alpha3 md := (mem_all_alpha3 md c).mpr ⟨(nm, e), hmd, hc, hne⟩
  refine ⟨sortStr (nbOf tbl c), (mem_out_iff md gs tbl out harc h c _).mpr ⟨hu, rfl⟩, ?_⟩
  intro hiso
  have hnil : nbOf tbl c = [] := by
    refine List.eq_nil_iff_forall_not_mem.mpr fun b hb => ?_
    rcases (mem_nbOf tbl c b).mp hb with ⟨⟨n, s⟩, hp, hlen, hcs, hbs, hbne⟩
    exact hbne (hiso n s b hp hcs hbs)
  rw [hnil]
  rfl

/-- Witness for C7: on the concrete run, the isolated code `"CCC"` appears
with an empty list. -/
theorem C7_witness :
    get_neighbors exMd2 exGs2 = some exOut2 ∧
      ∃ l, ("CCC", l) ∈ exOut2 ∧
        ((∀ (n : Int) (s : List String) (b : String),
            (n, s) ∈ [((5 : Int), ["BBB", "AAA"])] → "CCC" ∈ s → b ∈ s → b = "CCC") →
          l = []) :=
  ⟨by decide,
    C7_universe_complete exMd2 exGs2 [(5, ["BBB", "AAA"])] exOut2 "c" ⟨some "CCC"⟩ "CCC"
      (by decide) (by decide) (by decide) (by decide) (by decide)⟩

/-- C8: no code appears in its own neighbor list — the line-77 test
`a1 != a2` rules self-loops out, whatever the input. -/
theorem C8_no_self_adjacency (md : Metadata) (gs : List Geometry)
    (out : List (String × List String)) (a : String) (l : List String)
    (h : get_neighbors md gs = some out) (hmem : (a, l) ∈ out) :
    a ∉ l := by
  obtain ⟨tbl, harc, -⟩ := get_neighbors_some_inv md gs out h
  obtain ⟨-, rfl⟩ := (mem_out_iff md gs tbl out harc h a l).mp hmem
  intro hal
  rcases (mem_nbOf tbl a a).mp ((mem_sortStr _ a).mp hal) with ⟨p, -, -, -, -, hne⟩
  exact hne rfl

/-- Witness for C8 on a concrete run. -/
theorem C8_witness :
    get_neighbors exMd2 exGs2 = some exOut2 ∧ "AAA" ∉ ["BBB"] :=
  ⟨by decide,
    C8_no_self_adjacency exMd2 exGs2 exOut2 "AAA" ["BBB"] (by decide) (by decide)⟩

/-- C5, counterexample: the claim "every arc whose owner set has N ≥ 2
distinct codes makes each pair of distinct owners mutually adjacent" is
false.  On `exMd` / `exGs`, arc `5` has the two distinct owners `"XXX"` and
`"AAA"`, yet `"XXX"` is not a key of the output at all, so the pair is not
mutually adjacent — only the one-directional entry under `"AAA"` exists. -/
theorem C5_cex :
    arc_to_alpha3 exMd exGs = some [(5, ["XXX", "AAA"])] ∧
      get_neighbors exMd exGs = some [("AAA", ["XXX"])] ∧
      "XXX" ∉ List.map Prod.fst [("AAA", ["XXX"])] := by
  exact ⟨by decide, by decide, by decide⟩

/-- C5, amended: (1) an arc whose owner set has exactly one element
contributes nothing to the built neighbor map; (2) an arc with at least two
distinct owners makes every pair of distinct owners that both lie in the
recognized universe mutually adjacent (owners outside the universe get no
key, hence no mutual edge); (3) the pairs the builder inserts for an arc are
exactly the ordered distinct pairs of its owners, i.e. the off-diagonal of
the owner set, which has `2 * C(N, 2)` elements for `N` distinct owners. -/
theorem C5_threshold :
    (∀ (univ : List String) (t1 t2 : List (Int × List String)) (n : Int)
        (s : List String), s.length = 1 →
        buildNeighbors univ (t1 ++ (n, s) :: t2) = buildNeighbors univ (t1 ++ t2)) ∧
      (∀ (md : Metadata) (gs : List Geometry) (tbl : List (Int × List String))
          (out : List (String × List String)) (n : Int) (s : List String) (a b : String),
          arc_to_alpha3 md gs = some tbl → get_neighbors md gs = some out →
          (n, s) ∈ tbl → a ∈ s → b ∈ s → a ≠ b →
          a ∈ all_alpha3 md → b ∈ all_alpha3 md →
          ∃ la lb, (a, la) ∈ out ∧ (b, lb) ∈ out ∧ b ∈ la ∧ a ∈ lb) ∧
      (∀ (s : List String) (f : String → List String) (a b : String),
          b ∈ pairsFn s f a ↔ b ∈ f a ∨ (a, b) ∈ s.toFinset.offDiag) ∧
      (∀ s : List String, s.toFinset.offDiag.card = 2 * Nat.choose s.toFinset.card 2) := by
  refine ⟨?_, ?_, ?_, offDiag_card_toFinset⟩
  · intro univ t1 t2 n s hlen
    have hno : ¬1 < (n, s).2.length := by simp [hlen]
    rw [buildNeighbors, buildNeighbors, List.foldl_append, List.foldl_append,
      List.foldl_cons, if_neg hno]
  · intro md gs tbl out n s a b harc h htbl has hbs hab hau hbu
    have hlen : 1 < s.length := one_lt_length_of_mem_ne has hbs hab
    refine ⟨sortStr (nbOf tbl a), sortStr (nbOf tbl b),
      (mem_out_iff md gs tbl out harc h a _).mpr ⟨hau, rfl⟩,
      (mem_out_iff md gs tbl out harc h b _).mpr ⟨hbu, rfl⟩, ?_, ?_⟩
    · exact (mem_sortStr _ b).mpr ((mem_nbOf tbl a b).mpr
        ⟨(n, s), htbl, hlen, has, hbs, fun hc => hab hc.symm⟩)
    · exact (mem_sortStr _ a).mpr ((mem_nbOf tbl b a).mpr
        ⟨(n, s), htbl, hlen, hbs, has, hab⟩)
  · intro s f a b
    rw [mem_pairsFn, Finset.mem_offDiag]
    constructor
    · rintro (hb | ⟨has, hbs, hne⟩)
      · exact Or.inl hb
      · exact Or.inr ⟨List.mem_toFinset.mpr has, List.mem_toFinset.mpr hbs,
          fun hc => hne hc.symm⟩
    · rintro (hb | ⟨has, hbs, hne⟩)
      · exact Or.inl hb
      · exact Or.inr ⟨List.mem_toFinset.mp has, List.mem_toFinset.mp hbs,
          fun hc => hne hc.symm⟩

/-- Witness for C5: the singleton-owner arc `(5, ["AAA"])` contributes
nothing, and on the concrete run the owners of arc 5 are mutually
adjacent. -/
theorem C5_witness :
    buildNeighbors ["AAA"] ([] ++ ((5 : Int), ["AAA"]) :: []) =
        buildNeighbors ["AAA"] ([] ++ []) ∧
      ∃ la lb, ("AAA", la) ∈ exOut2 ∧ ("BBB", lb) ∈ exOut2 ∧
        "BBB" ∈ la ∧ "AAA" ∈ lb :=
  ⟨C5_threshold.1 ["AAA"] [] [] 5 ["AAA"] rfl,
    C5_threshold.2.1 exMd2 exGs2 [(5, ["BBB", "AAA"])] exOut2 5 ["BBB", "AAA"]
      "AAA" "BBB" (by decide) (by decide) (by decide) (by decide) (by decide)
      (by decide) (by decide) (by decide)⟩

/-- C6: the canonical arc id used for ownership is `r` for `r ≥ 0` and
`-r - 1` (the value of Python `~r`) for `r < 0`; indexing a single reference
`r` keys the ownership table by exactly that canonical id. -/
theorem C6_normalization :
    ∀ r : Int, normalize r = (if 0 ≤ r then r else -r - 1) ∧
      ∀ c : String, indexGeometry [] c [r] = [((if 0 ≤ r then r else -r - 1), [c])] := by
  intro r
  have h : normalize r = if 0 ≤ r then r else -r - 1 := by
    rw [normalize, pyNot]
    split
    · rfl
    · ring
  refine ⟨h, fun c => ?_⟩
  rw [indexGeometry, List.foldl_cons, List.foldl_nil, h]
  rfl

/-- C9: flattening returns exactly the flat left-to-right sequence of the
integer leaf references (`leafSeq`), it is compositional in the nesting
structure, the empty arc list yields the empty sequence, and an empty arc
list contributes no ownership entries. -/
theorem C9_flatten_correct :
    (∀ t : ArcTree, flatten_arcs t = leafSeq t []) ∧
      (∀ x y : ArcTree, flatten_arcs (.cons x y) = flatten_arcs x ++ flatten_arcs y) ∧
      flatten_arcs .nil = [] ∧
      (∀ (tbl : List (Int × List String)) (c : String),
          indexGeometry tbl c (flatten_arcs .nil) = tbl) := by
  refine ⟨?_, fun x y => rfl, rfl, fun tbl c => rfl⟩
  intro t
  rw [leafSeq_eq t [], List.append_nil]

/-- C10: the pipeline is total exactly when every geometry has a truthy id
or a `properties` field; otherwise the second pass hits the unguarded
`geom['properties']` (line 47) and the run fails instead of skipping the
geometry. -/
theorem C10_totality_iff (md : Metadata) (gs : List Geometry) :
    (get_neighbors md gs).isSome = true ↔
      ∀ g ∈ gs, truthy g.id = true ∨ g.properties ≠ none := by
  have h1 : (get_neighbors md gs).isSome = (arc_to_alpha3 md gs).isSome := by
    cases h : arc_to_alpha3 md gs <;> simp [get_neighbors, h]
  rw [h1, arc_to_alpha3, arcPass, arcFold_isSome]
  exact forall₂_congr fun g _ => pass2Key_isSome g

/-- C3, counterexample: the claim's last sentence, "a geometry resolving to
no code contributes nothing to the arc-ownership table", is false.  `gU`
resolves to no code, yet because it shares the id key `"X"` with the
resolved geometry `gV`, the second pass attributes `gU`'s arc `7` to `gV`'s
code — the table for `[gV, gU]` gains the entry `(7, ["AAA"])`, which the
table for `[gV]` alone lacks. -/
theorem C3_cex :
    resolvedCode exMd gU = none ∧
      arc_to_alpha3 exMd [gV, gU] = some [(5, ["AAA"]), (7, ["AAA"])] ∧
      arc_to_alpha3 exMd [gV] = some [(5, ["AAA"])] :=
  ⟨by decide, by decide, by decide⟩

/-- C3, amended: (1) the resolver follows exactly the claimed order —
embedded non-empty `properties.alpha3`, else metadata code by name, with the
Somaliland/`"ABV"` override forcing `"SOM"` regardless (this is
`specResolve`, word for word the claim); (2) a geometry resolving to no code
contributes nothing to the arc-ownership table provided no geometry sharing
its id/name key resolved to a code (the second pass is keyed by id/name, so
a resolved geometry with the same key lends its code to the unresolved
one). -/
theorem C3_resolution :
    (∀ (md : Metadata) (g : Geometry), resolvedCode md g = specResolve md g) ∧
      ∀ (md : Metadata) (pre post : List Geometry) (g : Geometry) (k : Option String),
        pass2Key g = some k → resolvedCode md g = none →
        (∀ g' ∈ pre ++ g :: post, pass1Key g' = k → resolvedCode md g' = none) →
        arc_to_alpha3 md (pre ++ g :: post) = arc_to_alpha3 md (pre ++ post) := by
  refine ⟨resolvedCode_eq_specResolve, ?_⟩
  intro md pre post g k hk hres hno
  have hid : id_to_alpha3 md (pre ++ g :: post) = id_to_alpha3 md (pre ++ post) :=
    id_to_alpha3_skip md pre post g hres
  have hno' : ∀ g' ∈ pre ++ post, pass1Key g' = k → resolvedCode md g' = none := by
    intro g' hg' hpk
    refine hno g' ?_ hpk
    rcases List.mem_append.mp hg' with h | h
    · exact List.mem_append.mpr (Or.inl h)
    · exact List.mem_append.mpr (Or.inr (List.mem_cons_of_mem _ h))
  have hl : lookupId (id_to_alpha3 md (pre ++ post)) k = none :=
    lookupId_none_of_no_resolved md (pre ++ post) k hno'
  rw [arc_to_alpha3, arc_to_alpha3, hid]
  exact arcPass_skip (id_to_alpha3 md (pre ++ post)) pre post g k hk hl

/-- Witness for C3: the resolver equality at `gA`, and dropping the
unresolved geometry `gY` (whose key `"Y"` no resolved geometry shares)
leaves the arc table unchanged. -/
theorem C3_witness :
    resolvedCode exMd gA = specResolve exMd gA ∧
      arc_to_alpha3 exMd ([gA] ++ gY :: []) = arc_to_alpha3 exMd ([gA] ++ []) :=
  ⟨C3_resolution.1 exMd gA,
    C3_resolution.2 exMd [gA] [] gY (some "Y") (by decide) (by decide) (by decide)⟩

/-- C4: replacing one arc reference `r` anywhere in one geometry's (possibly
nested) arc structure by its complement `-r - 1` leaves the final neighbor
mapping unchanged — both references normalize to the same canonical arc
id. -/
theorem C4_sign_invariance (md : Metadata) (pre post : List Geometry)
    (g : Geometry) (t' : ArcTree) (h : LeafFlip g.arcs t') :
    get_neighbors md (pre ++ g :: post) =
      get_neighbors md (pre ++ { g with arcs := t' } :: post) := by
  have hid : id_to_alpha3 md (pre ++ { g with arcs := t' } :: post) =
      id_to_alpha3 md (pre ++ g :: post) := by
    rw [id_to_alpha3, id_to_alpha3, List.foldl_append, List.foldl_append,
      List.foldl_cons, List.foldl_cons]
    rfl
  have harc : arc_to_alpha3 md (pre ++ { g with arcs := t' } :: post) =
      arc_to_alpha3 md (pre ++ g :: post) := by
    rw [arc_to_alpha3, arc_to_alpha3, hid, arcPass, arcPass, List.foldl_append,
      List.foldl_append, List.foldl_cons, List.foldl_cons,
      arcStep_flip (id_to_alpha3 md (pre ++ g :: post)) _ g t' h]
  rw [get_neighbors, get_neighbors, harc]

/-- Witness for C4: flipping `g2`'s reference `-6` to `-(-6) - 1 = 5`
leaves the concrete output unchanged. -/
theorem C4_witness :
    LeafFlip g2.arcs (.cons (.leaf (-(-6) - 1)) .nil) ∧
      get_neighbors exMd2 ([g1] ++ g2 :: []) =
        get_neighbors exMd2
          ([g1] ++ { g2 with arcs := .cons (.leaf (-(-6) - 1)) .nil } :: []) :=
  ⟨LeafFlip.left (LeafFlip.leaf (-6)),
    C4_sign_invariance exMd2 [g1] [] g2 (.cons (.leaf (-(-6) - 1)) .nil)
      (LeafFlip.left (LeafFlip.leaf (-6)))⟩

end AfricaNeighbors
